import Mathlib

/-!
Verification of the jobject dynamic-property object model (JObject.h / JObject.cpp,
the current variant of the sources).

The embedding models:

* `Value` — the `ValueVariant` tagged union.  Handle kinds (`shared_ptr<JString>`,
  `shared_ptr<JArray>`, …) are represented by the payload they wrap at creation
  (text, element list, function name, instant).  Sharing and identity of handles
  are not needed by any verified claim.  `double` carries its bit pattern and is
  never computed on.
* `Descriptor` — `PropertyDescriptor`.  The getter/setter closures installed by
  this code base are defunctionalised: each closure shape that actually occurs in
  the sources gets one constructor (`GetterImpl`/`SetterImpl`), interpreted by
  `runGetter`/`runSetter` against the receiver's current payload, exactly as the
  C++ lambdas capture `this` and read the live state.  `constGetter`/`sink`
  stand for caller-supplied accessors.
* `JObj` — a base-object instance: its payload (which variant kind it is and the
  kind's native state) plus the `properties_` table.  The `unordered_map` is an
  association list with at most one entry per key (`upsert` replaces in place,
  like `map[k] = v`); enumeration order is the list order, which models the
  map's unspecified-but-deterministic traversal order.
* the property operations `defineProperty`, `deleteProperty`, `hasProperty`,
  `getPropertyNames`, `getProperty` (= the virtual `getPropertyInternal`
  dispatch), `setProperty`, translated line by line from JObject.cpp.
* the on-demand built-in methods (`push`, `pop`, `shift`, `splice`, `slice`,
  `getTime`, `setTime`, …) as state transformers (`callBuiltin`), translated
  from the lambda bodies in the respective `getPropertyInternal` overrides.
  String-producing methods (`concat`, `indexOf`, rendering) and user closures
  are not invoked by any claim and their invocation is left unmodelled
  (`callBuiltin` returns `none` for them).

`size_t`→`int32_t`/`uint32_t`/`uint64_t` casts in the sources are modelled with
explicit wrap-around (`wrap32`, `toU32`, `toI64`, `toU64Int`).
-/

/-- The property names that occur in the sources, as named constants. -/
def nmToString : String := "toString"

def nmLength : String := "length"

def nmConcat : String := "concat"

def nmIndexOf : String := "indexOf"

def nmLastIndexOf : String := "lastIndexOf"

def nmPush : String := "push"

def nmPop : String := "pop"

def nmShift : String := "shift"

def nmUnshift : String := "unshift"

def nmSplice : String := "splice"

def nmSlice : String := "slice"

def nmCall : String := "call"

def nmName : String := "name"

def nmGetTime : String := "getTime"

def nmSetTime : String := "setTime"

/-- Tags for the `JFunction` closures synthesized by the `getPropertyInternal`
overrides (one per lambda in the sources), plus `user` for caller-supplied
functions. -/
inductive FnImpl where
  | objToString
  | strConcat
  | strIndexOf
  | strLastIndexOf
  | arrPush
  | arrPop
  | arrShift
  | arrUnshift
  | arrSplice
  | arrSlice
  | fnCall
  | dateGetTime
  | dateSetTime
  | user
deriving DecidableEq

/-- `ValueVariant`: the closed tagged union of value kinds.  The four ownership
handles carry the payload of the object they reference; `date` carries the
stored instant as whole seconds since the epoch (`system_clock::from_time_t`
granularity). -/
inductive Value where
  | null
  | boolean (b : Bool)
  | int32 (i : Int)
  | uint32 (n : Nat)
  | uint64 (n : Nat)
  | double (bits : Nat)
  | str (text : String)
  | arr (elems : List Value)
  | obj
  | func (name : String) (impl : FnImpl)
  | date (seconds : Int)

/-- The getter closures stored in descriptors by this code base
(`initializeStringProperties`, `initializeArrayProperties`, `updateLength`,
`initializeFunctionProperties`), plus `constGetter` for a caller-supplied
getter returning a fixed value. -/
inductive GetterImpl where
  | strLength
  | arrLength
  | arrIndex (i : Nat)
  | fnName
  | constGetter (v : Value)

/-- The setter closures stored in descriptors by this code base
(`initializeArrayProperties`, `updateLength`), plus `sink` for a
caller-supplied setter whose effect is opaque to the engine. -/
inductive SetterImpl where
  | arrLength
  | arrIndex (i : Nat)
  | sink

/-- `PropertyDescriptor`: stored value, three flags (all defaulting to `true`),
and optional accessor closures.  A default-constructed `ValueVariant` is
`nullptr` (the absent value). -/
structure Descriptor where
  value : Value := Value.null
  writable : Bool := true
  enumerable : Bool := true
  configurable : Bool := true
  getter : Option GetterImpl := none
  setter : Option SetterImpl := none

/-- The kind-specific native payload of an object (`JObject` has none,
`JString` a text buffer, `JArray` an element vector, `JFunction` a display name
and a closure — the closure itself is opaque and never invoked by the claims —
`JDate` a `time_point`, stored as whole seconds). -/
inductive Payload where
  | obj
  | str (text : String)
  | arr (elems : List Value)
  | fn (name : String)
  | date (seconds : Int)

/-- A base-object instance: variant payload plus the `properties_` table. -/
structure JObj where
  payload : Payload
  table : List (String × Descriptor)

/-- `properties_.find(name)`: first (and only) entry with the given key. -/
def tlookup : List (String × Descriptor) → String → Option Descriptor
  | [], _ => none
  | (k, d) :: t, name => if k = name then some d else tlookup t name

/-- `properties_[name] = descriptor`: replace in place if present, else append. -/
def upsert : List (String × Descriptor) → String → Descriptor → List (String × Descriptor)
  | [], name, d => [(name, d)]
  | (k, e) :: t, name, d => if k = name then (name, d) :: t else (k, e) :: upsert t name d

/-- `properties_.erase(it)`: remove the entry found for the key. -/
def eraseKey : List (String × Descriptor) → String → List (String × Descriptor)
  | [], _ => []
  | (k, e) :: t, name => if k = name then t else (k, e) :: eraseKey t name

/-- `static_cast<uint32_t>` of a non-negative quantity. -/
def toU32 (n : Nat) : Nat := n % 4294967296

/-- `static_cast<int32_t>` of a `size_t` (two's complement wrap). -/
def wrap32 (x : Int) : Int := (x + 2147483648) % 4294967296 - 2147483648

/-- `uint64_t` → `int64_t` conversion (two's complement wrap). -/
def toI64 (x : Int) : Int := (x + 9223372036854775808) % 18446744073709551616 - 9223372036854775808

/-- `static_cast<uint64_t>` of an `int64_t` (modular, non-negative result). -/
def toU64Int (x : Int) : Nat := (x % (18446744073709551616 : Int)).toNat

/-- `std::vector::resize`: truncate, or extend with default-constructed
elements (`ValueVariant()` = `nullptr`, the absent value). -/
def resizeList (l : List Value) (n : Nat) : List Value :=
  l.take n ++ List.replicate (n - l.length) Value.null

/-- Run a stored getter closure against the receiver's current payload (the
lambdas capture `this` and read the live state).  Mismatched combinations
(e.g. a string getter on an array) never arise. -/
def runGetter : GetterImpl → Payload → Value
  | GetterImpl.strLength, Payload.str s => Value.uint32 (toU32 s.length)
  | GetterImpl.arrLength, Payload.arr l => Value.uint32 (toU32 l.length)
  | GetterImpl.arrIndex i, Payload.arr l =>
    if h : i < l.length then l.get ⟨i, h⟩ else Value.null
  | GetterImpl.fnName, Payload.fn n => Value.str n
  | GetterImpl.constGetter v, _ => v
  | _, _ => Value.null

/-- Run a stored setter closure against the receiver's current payload.  The
array `length` setter resizes only when the written value holds `uint32_t`;
the index setter writes only in bounds; a caller-supplied setter's effect is
opaque (it does not touch the modelled state). -/
def runSetter : SetterImpl → Payload → Value → Payload
  | SetterImpl.arrLength, Payload.arr l, v =>
    match v with
    | Value.uint32 n => Payload.arr (resizeList l n)
    | _ => Payload.arr l
  | SetterImpl.arrIndex i, Payload.arr l, v =>
    Payload.arr (if i < l.length then l.set i v else l)
  | SetterImpl.sink, p, _ => p
  | _, p, _ => p

/-- Resolution of a stored descriptor on a read: invoke the getter if present,
else return the stored value. -/
def resolveDescriptor (d : Descriptor) (p : Payload) : Value :=
  match d.getter with
  | some g => runGetter g p
  | none => d.value

/-- `JObject::getPropertyInternal`: stored table first, then the universal
`toString` fallback, else absent. -/
def baseGet (o : JObj) (name : String) : Value :=
  match tlookup o.table name with
  | some d => resolveDescriptor d o.payload
  | none =>
    if name = nmToString then Value.func nmToString FnImpl.objToString
    else Value.null

/-- `getProperty` / the virtual `getPropertyInternal` dispatch: each variant
kind's override recognises its built-in method names first and only then
delegates to `JObject::getPropertyInternal`. -/
def getProperty (o : JObj) (name : String) : Value :=
  match o.payload with
  | Payload.obj => baseGet o name
  | Payload.str _ =>
    if name = nmConcat then Value.func nmConcat FnImpl.strConcat
    else if name = nmIndexOf then Value.func nmIndexOf FnImpl.strIndexOf
    else if name = nmLastIndexOf then Value.func nmLastIndexOf FnImpl.strLastIndexOf
    else baseGet o name
  | Payload.arr _ =>
    if name = nmPush then Value.func nmPush FnImpl.arrPush
    else if name = nmPop then Value.func nmPop FnImpl.arrPop
    else if name = nmShift then Value.func nmShift FnImpl.arrShift
    else if name = nmUnshift then Value.func nmUnshift FnImpl.arrUnshift
    else if name = nmSplice then Value.func nmSplice FnImpl.arrSplice
    else if name = nmSlice then Value.func nmSlice FnImpl.arrSlice
    else baseGet o name
  | Payload.fn _ =>
    if name = nmCall then Value.func nmCall FnImpl.fnCall
    else baseGet o name
  | Payload.date _ =>
    if name = nmGetTime then Value.func nmGetTime FnImpl.dateGetTime
    else if name = nmSetTime then Value.func nmSetTime FnImpl.dateSetTime
    else baseGet o name

/-- `JObject::setProperty`: stored descriptor's setter first, else overwrite if
writable, else fail; on a miss create a descriptor with default flags. -/
def setProperty (o : JObj) (name : String) (v : Value) : Bool × JObj :=
  match tlookup o.table name with
  | some d =>
    match d.setter with
    | some s => (true, { o with payload := runSetter s o.payload v })
    | none =>
      if d.writable then
        (true, { o with table := upsert o.table name { d with value := v } })
      else (false, o)
  | none => (true, { o with table := upsert o.table name { value := v } })

/-- `JObject::defineProperty`: unconditional upsert, always returns true. -/
def defineProperty (o : JObj) (name : String) (d : Descriptor) : Bool × JObj :=
  (true, { o with table := upsert o.table name d })

/-- `JObject::deleteProperty`: erase only a found, configurable entry. -/
def deleteProperty (o : JObj) (name : String) : Bool × JObj :=
  match tlookup o.table name with
  | some d =>
    if d.configurable then (true, { o with table := eraseKey o.table name })
    else (false, o)
  | none => (false, o)

/-- `JObject::hasProperty`: stored table only. -/
def hasProperty (o : JObj) (name : String) : Bool :=
  (tlookup o.table name).isSome

/-- `JObject::getPropertyNames`: the names of the enumerable stored
descriptors, in table order. -/
def getPropertyNames (o : JObj) : List String :=
  (o.table.filter (fun p => p.2.enumerable)).map (fun p => p.1)

/-- One decimal digit character. -/
def digitChar : Nat → Char
  | 0 => '0'
  | 1 => '1'
  | 2 => '2'
  | 3 => '3'
  | 4 => '4'
  | 5 => '5'
  | 6 => '6'
  | 7 => '7'
  | 8 => '8'
  | 9 => '9'
  | _ => '*'

/-- Decimal digit characters of `n`, most significant first (fuel-driven so
that it reduces definitionally; `fuel = n + 1` always suffices). -/
def decChars : Nat → Nat → List Char
  | 0, _ => []
  | fuel + 1, n =>
    if n < 10 then [digitChar n]
    else decChars fuel (n / 10) ++ [digitChar (n % 10)]

/-- `std::to_string` of a non-negative integer. -/
def decimalString (n : Nat) : String := String.mk (decChars (n + 1) n)

/-- The accessor descriptor `updateLength` installs for index `i`: a
bounds-guarded getter/setter pair with all three flags true. -/
def indexDescr (i : Nat) : Descriptor :=
  { value := Value.null, writable := true, enumerable := true, configurable := true,
    getter := some (GetterImpl.arrIndex i), setter := some (SetterImpl.arrIndex i) }

/-- Defining the index descriptors for `i = 0, …, n-1` on top of a table. -/
def foldIdx (t : List (String × Descriptor)) (n : Nat) : List (String × Descriptor) :=
  (List.range n).foldl (fun acc i => upsert acc (decimalString i) (indexDescr i)) t

/-- `JArray::updateLength`: (re)define a numeric-index accessor descriptor for
every current index.  Entries for stale indices are never removed. -/
def updateLength (o : JObj) : JObj :=
  match o.payload with
  | Payload.arr l => { o with table := foldIdx o.table l.length }
  | _ => o

/-- The `length` descriptor `initializeStringProperties` installs. -/
def lengthDescrString : Descriptor :=
  { getter := some GetterImpl.strLength, setter := none,
    writable := false, enumerable := false, configurable := false }

/-- `JString::JString`. -/
def mkString (text : String) : JObj :=
  (defineProperty { payload := Payload.str text, table := [] } nmLength lengthDescrString).2

/-- The `length` descriptor `initializeArrayProperties` installs. -/
def lengthDescrArray : Descriptor :=
  { getter := some GetterImpl.arrLength, setter := some SetterImpl.arrLength,
    writable := true, enumerable := false, configurable := false }

/-- `JArray::JArray(values)`. -/
def mkArray (l : List Value) : JObj :=
  updateLength (defineProperty { payload := Payload.arr l, table := [] } nmLength lengthDescrArray).2

/-- The `name` descriptor `initializeFunctionProperties` installs. -/
def nameDescrFn : Descriptor :=
  { getter := some GetterImpl.fnName, setter := none,
    writable := false, enumerable := false, configurable := true }

/-- The `length` descriptor `initializeFunctionProperties` installs. -/
def lengthDescrFn : Descriptor :=
  { value := Value.uint32 0, writable := false, enumerable := false, configurable := true }

/-- `JFunction::JFunction` (the wrapped closure is opaque to the claims). -/
def mkFunction (name : String) : JObj :=
  (defineProperty (defineProperty { payload := Payload.fn name, table := [] } nmName nameDescrFn).2
    nmLength lengthDescrFn).2

/-- `JObject::JObject` (`initializeCommonProperties` installs nothing). -/
def mkObject : JObj := { payload := Payload.obj, table := [] }

/-- `JDate::JDate(int64_t)`: `from_time_t(timestamp / 1000)` — truncating
division to whole seconds. -/
def mkDate (t : Int) : JObj := { payload := Payload.date (t.tdiv 1000), table := [] }

/-- `JDate::getTime`: milliseconds since the epoch of the stored instant. -/
def dateGetTimeVal (secs : Int) : Int := secs * 1000

/-- The current element list of an array object. -/
def JObj.elems (o : JObj) : List Value :=
  match o.payload with
  | Payload.arr l => l
  | _ => []

/-- The `push` lambda: append every argument, `updateLength`, return the new
size as `uint32_t`. -/
def arrPushImpl (o : JObj) (args : List Value) : JObj × Value :=
  match o.payload with
  | Payload.arr l =>
    let l2 := l ++ args
    (updateLength { o with payload := Payload.arr l2 }, Value.uint32 (toU32 l2.length))
  | _ => (o, Value.null)

/-- The `pop` lambda: absent on an empty array, else remove and return the
last element and `updateLength`. -/
def arrPopImpl (o : JObj) : JObj × Value :=
  match o.payload with
  | Payload.arr l =>
    match l.getLast? with
    | none => (o, Value.null)
    | some last => (updateLength { o with payload := Payload.arr l.dropLast }, last)
  | _ => (o, Value.null)

/-- The `shift` lambda: absent on an empty array, else remove and return the
first element and `updateLength`. -/
def arrShiftImpl (o : JObj) : JObj × Value :=
  match o.payload with
  | Payload.arr l =>
    match l with
    | [] => (o, Value.null)
    | x :: rest => (updateLength { o with payload := Payload.arr rest }, x)
  | _ => (o, Value.null)

/-- The `unshift` lambda: insert the arguments at the front, `updateLength`,
return the new size as `uint32_t`. -/
def arrUnshiftImpl (o : JObj) (args : List Value) : JObj × Value :=
  match o.payload with
  | Payload.arr l =>
    let l2 := args ++ l
    (updateLength { o with payload := Payload.arr l2 }, Value.uint32 (toU32 l2.length))
  | _ => (o, Value.null)

/-- The `splice` lambda's `startIndex`: the int32 first argument (default 0),
normalised against the size cast to `int32_t` when negative, clamped to the
size. -/
def spliceStartIndex (l : List Value) (args : List Value) : Nat :=
  let start0 : Int :=
    match args.head? with
    | some (Value.int32 i) => i
    | _ => 0
  let start1 : Int := if start0 < 0 then max 0 (wrap32 l.length + start0) else start0
  min start1.toNat l.length

/-- The `splice` lambda's `deleteCount`: the int32 second argument clamped
below by 0 (default: the whole size), clamped to the elements remaining after
`startIndex`. -/
def spliceDelCount (l : List Value) (args : List Value) : Nat :=
  let delCount0 : Nat :=
    match args.get? 1 with
    | some (Value.int32 i) => (max 0 i).toNat
    | _ => l.length
  min delCount0 (l.length - spliceStartIndex l args)

/-- The elements `splice` removes. -/
def spliceDeleted (l : List Value) (args : List Value) : List Value :=
  (l.drop (spliceStartIndex l args)).take (spliceDelCount l args)

/-- The element sequence after `splice`: removal of the deleted range, then
insertion of the third and later arguments at `startIndex`. -/
def spliceNewList (l : List Value) (args : List Value) : List Value :=
  l.take (spliceStartIndex l args)
    ++ (if args.length > 2 then args.drop 2 else [])
    ++ l.drop (spliceStartIndex l args + spliceDelCount l args)

/-- The `splice` lambda, translated clause by clause (int32 arguments only are
recognised; an empty argument list returns a fresh empty array without
mutating). -/
def arrSpliceImpl (o : JObj) (args : List Value) : JObj × Value :=
  match o.payload with
  | Payload.arr l =>
    if args.isEmpty then (o, Value.arr [])
    else
      (updateLength { o with payload := Payload.arr (spliceNewList l args) },
        Value.arr (spliceDeleted l args))
  | _ => (o, Value.null)

/-- The `slice` lambda, translated clause by clause: int32 arguments only are
recognised, a missing end defaults to the current size, negative indices are
normalised against the size cast to `int32_t`, both bounds are clamped, and an
empty (never failing) result is produced when they cross.  The receiver is not
modified. -/
def sliceImpl (l : List Value) (args : List Value) : Value :=
  let start0 : Int :=
    match args.head? with
    | some (Value.int32 i) => i
    | _ => 0
  let end0 : Int :=
    match args.get? 1 with
    | some (Value.int32 i) => i
    | _ => wrap32 l.length
  let start1 : Int := if start0 < 0 then max 0 (wrap32 l.length + start0) else start0
  let end1 : Int := if end0 < 0 then max 0 (wrap32 l.length + end0) else end0
  let startIndex : Nat := min start1.toNat l.length
  let endIndex : Nat := min end1.toNat l.length
  if endIndex ≤ startIndex then Value.arr []
  else Value.arr ((l.drop startIndex).take (endIndex - startIndex))

/-- Invocation of a synthesized built-in method on its receiver.  String
methods, rendering, `call` and user closures are not invoked by any claim and
are left unmodelled (`none`). -/
def callBuiltin : FnImpl → JObj → List Value → Option (JObj × Value)
  | FnImpl.arrPush, o, args => some (arrPushImpl o args)
  | FnImpl.arrPop, o, _ => some (arrPopImpl o)
  | FnImpl.arrShift, o, _ => some (arrShiftImpl o)
  | FnImpl.arrUnshift, o, args => some (arrUnshiftImpl o args)
  | FnImpl.arrSplice, o, args => some (arrSpliceImpl o args)
  | FnImpl.arrSlice, o, args =>
    match o.payload with
    | Payload.arr l => some (o, sliceImpl l args)
    | _ => none
  | FnImpl.dateGetTime, o, _ =>
    match o.payload with
    | Payload.date s => some (o, Value.uint64 (toU64Int (dateGetTimeVal s)))
    | _ => none
  | FnImpl.dateSetTime, o, args =>
    match o.payload with
    | Payload.date s =>
      let s2 : Int :=
        match args.head? with
        | some (Value.uint64 n) => (toI64 n).tdiv 1000
        | some (Value.int32 i) => i.tdiv 1000
        | _ => s
      some ({ o with payload := Payload.date s2 }, Value.uint64 (toU64Int (dateGetTimeVal s2)))
    | _ => none
  | _, _, _ => none

/-- The built-in method names a variant kind's `getPropertyInternal` override
recognises before delegating to the stored table. -/
def intercepted : Payload → String → Prop
  | Payload.obj, _ => False
  | Payload.str _, name => name = nmConcat ∨ name = nmIndexOf ∨ name = nmLastIndexOf
  | Payload.arr _, name =>
    name = nmPush ∨ name = nmPop ∨ name = nmShift ∨ name = nmUnshift ∨
      name = nmSplice ∨ name = nmSlice
  | Payload.fn _, name => name = nmCall
  | Payload.date _, name => name = nmGetTime ∨ name = nmSetTime

instance (p : Payload) (name : String) : Decidable (intercepted p name) := by
  cases p <;> simp only [intercepted] <;> infer_instance

/-- The table keys are pairwise distinct — the invariant every
`unordered_map` has and every reachable `JObj` of the model preserves. -/
def TableWF (o : JObj) : Prop := (o.table.map Prod.fst).Nodup

/-! ### Association-table lemmas -/

theorem tlookup_upsert_self (t : List (String × Descriptor)) (k : String) (d : Descriptor) :
    tlookup (upsert t k d) k = some d := by
  induction t with
  | nil => simp [upsert, tlookup]
  | cons hd tl ih =>
    obtain ⟨k0, d0⟩ := hd
    by_cases h : k0 = k
    · subst h
      simp [upsert, tlookup]
    · simp [upsert, tlookup, h, ih]

theorem tlookup_upsert_ne (t : List (String × Descriptor)) (k k' : String) (d : Descriptor)
    (h : k' ≠ k) : tlookup (upsert t k d) k' = tlookup t k' := by
  induction t with
  | nil => simp [upsert, tlookup, Ne.symm h]
  | cons hd tl ih =>
    obtain ⟨k0, d0⟩ := hd
    by_cases h0 : k0 = k
    · subst h0
      simp [upsert, tlookup, Ne.symm h]
    · simp [upsert, tlookup, h0, ih]

theorem tlookup_mem (t : List (String × Descriptor)) (k : String) (d : Descriptor)
    (h : tlookup t k = some d) : (k, d) ∈ t := by
  induction t with
  | nil => simp [tlookup] at h
  | cons hd tl ih =>
    obtain ⟨k0, d0⟩ := hd
    by_cases h0 : k0 = k
    · subst h0
      simp only [tlookup, if_true, eq_self_iff_true, ite_true, Option.some.injEq] at h
      subst h
      exact List.mem_cons_self _ _
    · simp only [tlookup, if_neg h0] at h
      exact List.mem_cons_of_mem _ (ih h)

theorem tlookup_eq_none (t : List (String × Descriptor)) (k : String)
    (h : k ∉ t.map Prod.fst) : tlookup t k = none := by
  induction t with
  | nil => rfl
  | cons hd tl ih =>
    obtain ⟨k0, d0⟩ := hd
    simp only [List.map_cons, List.mem_cons] at h
    push_neg at h
    simp [tlookup, Ne.symm h.1, ih h.2]

theorem tlookup_eraseKey_ne (t : List (String × Descriptor)) (k k' : String) (h : k' ≠ k) :
    tlookup (eraseKey t k) k' = tlookup t k' := by
  induction t with
  | nil => rfl
  | cons hd tl ih =>
    obtain ⟨k0, d0⟩ := hd
    by_cases h0 : k0 = k
    · subst h0
      simp [eraseKey, tlookup, Ne.symm h]
    · simp [eraseKey, tlookup, h0, ih]

theorem tlookup_eraseKey_self (t : List (String × Descriptor)) (k : String)
    (h : (t.map Prod.fst).Nodup) : tlookup (eraseKey t k) k = none := by
  induction t with
  | nil => rfl
  | cons hd tl ih =>
    obtain ⟨k0, d0⟩ := hd
    simp only [List.map_cons, List.nodup_cons] at h
    by_cases h0 : k0 = k
    · subst h0
      simp only [eraseKey, if_pos rfl]
      exact tlookup_eq_none tl k0 h.1
    · simp [eraseKey, tlookup, h0, ih h.2]

theorem upsert_self_of_tlookup (t : List (String × Descriptor)) (k : String) (d : Descriptor)
    (h : tlookup t k = some d) : upsert t k d = t := by
  induction t with
  | nil => simp [tlookup] at h
  | cons hd tl ih =>
    obtain ⟨k0, d0⟩ := hd
    by_cases h0 : k0 = k
    · subst h0
      simp only [tlookup, if_true, eq_self_iff_true, ite_true, Option.some.injEq] at h
      simp [upsert, h]
    · simp only [tlookup, if_neg h0] at h
      simp [upsert, h0, ih h]

/-! ### Decimal rendering of indices (`std::to_string`) -/

theorem digitChar_isDigit (d : Nat) (h : d < 10) : (digitChar d).isDigit = true := by
  interval_cases d <;> decide

theorem digitChar_toNat (d : Nat) (h : d < 10) : (digitChar d).toNat = 48 + d := by
  interval_cases d <;> decide

/-- The number a digit string denotes (used only to prove `decimalString`
injective). -/
def valOfChars (l : List Char) : Nat :=
  l.foldl (fun a c => a * 10 + (c.toNat - 48)) 0

theorem valOfChars_append (l : List Char) (c : Char) :
    valOfChars (l ++ [c]) = valOfChars l * 10 + (c.toNat - 48) := by
  simp [valOfChars, List.foldl_append]

theorem valOfChars_decChars (fuel n : Nat) (h : n ≤ fuel) :
    valOfChars (decChars (fuel + 1) n) = n := by
  induction fuel generalizing n with
  | zero =>
    interval_cases n
    decide
  | succ f ih =>
    by_cases h10 : n < 10
    · simp only [decChars, if_pos h10, valOfChars, List.foldl_cons, List.foldl_nil]
      rw [digitChar_toNat n h10]
      omega
    · have hrec : decChars (f + 1 + 1) n = decChars (f + 1) (n / 10) ++ [digitChar (n % 10)] := by
        simp [decChars, h10]
      have hdiv : n / 10 ≤ f := by
        have := Nat.div_lt_self (by omega : 0 < n) (by omega : 1 < 10)
        omega
      rw [hrec, valOfChars_append, ih (n / 10) hdiv, digitChar_toNat (n % 10) (Nat.mod_lt n (by omega))]
      omega

theorem decimalString_injective (m n : Nat) (h : decimalString m = decimalString n) : m = n := by
  have hd : decChars (m + 1) m = decChars (n + 1) n := congrArg String.data h
  have h1 := valOfChars_decChars m m (le_refl m)
  have h2 := valOfChars_decChars n n (le_refl n)
  rw [hd] at h1
  omega

theorem decChars_digits (fuel n : Nat) (c : Char) (h : c ∈ decChars fuel n) :
    c.isDigit = true := by
  induction fuel generalizing n with
  | zero => simp [decChars] at h
  | succ f ih =>
    by_cases h10 : n < 10
    · simp only [decChars, if_pos h10, List.mem_singleton] at h
      subst h
      exact digitChar_isDigit n h10
    · simp only [decChars, if_neg h10, List.mem_append, List.mem_singleton] at h
      rcases h with h | h
      · exact ih (n / 10) h
      · subst h
        exact digitChar_isDigit (n % 10) (Nat.mod_lt n (by omega))

theorem decimalString_digits (n : Nat) (c : Char) (h : c ∈ (decimalString n).data) :
    c.isDigit = true :=
  decChars_digits (n + 1) n c h

theorem decimalString_ne (n : Nat) (s : String) (c : Char) (hc : c ∈ s.data)
    (hnd : c.isDigit = false) : decimalString n ≠ s := by
  intro h
  subst h
  have := decimalString_digits n c hc
  rw [hnd] at this
  exact Bool.noConfusion this

theorem dec_ne_length (n : Nat) : decimalString n ≠ nmLength :=
  decimalString_ne n nmLength 'l' (by decide) (by decide)

theorem dec_ne_toString (n : Nat) : decimalString n ≠ nmToString :=
  decimalString_ne n nmToString 't' (by decide) (by decide)

/-! ### Facts about the interception of built-in names -/

theorem not_intercepted_decimal (p : Payload) (j : Nat) : ¬ intercepted p (decimalString j) := by
  cases p with
  | obj => exact fun h => h.elim
  | str s =>
    rintro (h | h | h)
    · exact decimalString_ne j nmConcat 'c' (by decide) (by decide) h
    · exact decimalString_ne j nmIndexOf 'i' (by decide) (by decide) h
    · exact decimalString_ne j nmLastIndexOf 'l' (by decide) (by decide) h
  | arr l =>
    rintro (h | h | h | h | h | h)
    · exact decimalString_ne j nmPush 'p' (by decide) (by decide) h
    · exact decimalString_ne j nmPop 'p' (by decide) (by decide) h
    · exact decimalString_ne j nmShift 's' (by decide) (by decide) h
    · exact decimalString_ne j nmUnshift 'u' (by decide) (by decide) h
    · exact decimalString_ne j nmSplice 's' (by decide) (by decide) h
    · exact decimalString_ne j nmSlice 's' (by decide) (by decide) h
  | fn nm => exact fun h => decimalString_ne j nmCall 'c' (by decide) (by decide) h
  | date s =>
    rintro (h | h)
    · exact decimalString_ne j nmGetTime 'g' (by decide) (by decide) h
    · exact decimalString_ne j nmSetTime 's' (by decide) (by decide) h

theorem not_intercepted_length (p : Payload) : ¬ intercepted p nmLength := by
  cases p <;> simp only [intercepted] <;> decide

theorem getProperty_eq_baseGet (o : JObj) (name : String) (h : ¬ intercepted o.payload name) :
    getProperty o name = baseGet o name := by
  obtain ⟨p, t⟩ := o
  cases p with
  | obj => rfl
  | str s =>
    simp only [intercepted] at h
    push_neg at h
    simp [getProperty, h.1, h.2.1, h.2.2]
  | arr l =>
    simp only [intercepted] at h
    push_neg at h
    simp [getProperty, h.1, h.2.1, h.2.2.1, h.2.2.2.1, h.2.2.2.2.1, h.2.2.2.2.2]
  | fn nm =>
    simp only [intercepted] at h
    simp [getProperty, h]
  | date s =>
    simp only [intercepted] at h
    push_neg at h
    simp [getProperty, h.1, h.2]

theorem getProperty_table_irrel (p : Payload) (t1 t2 : List (String × Descriptor)) (name : String)
    (h : intercepted p name) :
    getProperty { payload := p, table := t1 } name
      = getProperty { payload := p, table := t2 } name := by
  cases p with
  | obj => exact h.elim
  | str s => rcases h with h | h | h <;> subst h <;> rfl
  | arr l => rcases h with h | h | h | h | h | h <;> subst h <;> rfl
  | fn nm =>
    have hc : name = nmCall := h
    subst hc
    rfl
  | date s => rcases h with h | h <;> subst h <;> rfl

/-! ### The table of a freshly constructed array, and of `updateLength` -/

theorem mkArray_payload (l : List Value) : (mkArray l).payload = Payload.arr l := rfl

theorem mkArray_table (l : List Value) :
    (mkArray l).table = foldIdx [(nmLength, lengthDescrArray)] l.length := rfl

theorem foldIdx_succ (t : List (String × Descriptor)) (n : Nat) :
    foldIdx t (n + 1) = upsert (foldIdx t n) (decimalString n) (indexDescr n) := by
  simp [foldIdx, List.range_succ, List.foldl_append]

theorem tlookup_foldIdx_lt (t : List (String × Descriptor)) (n j : Nat) (h : j < n) :
    tlookup (foldIdx t n) (decimalString j) = some (indexDescr j) := by
  induction n with
  | zero => omega
  | succ m ih =>
    rw [foldIdx_succ]
    by_cases hj : j = m
    · subst hj
      exact tlookup_upsert_self _ _ _
    · rw [tlookup_upsert_ne _ _ _ _ (fun hh => hj (decimalString_injective j m hh))]
      exact ih (by omega)

theorem tlookup_foldIdx_ge (t : List (String × Descriptor)) (n j : Nat) (h : n ≤ j) :
    tlookup (foldIdx t n) (decimalString j) = tlookup t (decimalString j) := by
  induction n with
  | zero => rfl
  | succ m ih =>
    rw [foldIdx_succ,
      tlookup_upsert_ne _ _ _ _ (fun hh => by have := decimalString_injective j m hh; omega)]
    exact ih (by omega)

theorem tlookup_foldIdx_nondigit (t : List (String × Descriptor)) (n : Nat) (s : String)
    (c : Char) (hc : c ∈ s.data) (hnd : c.isDigit = false) :
    tlookup (foldIdx t n) s = tlookup t s := by
  induction n with
  | zero => rfl
  | succ m ih =>
    rw [foldIdx_succ, tlookup_upsert_ne _ _ _ _ (fun hh => decimalString_ne m s c hc hnd hh.symm)]
    exact ih

theorem tlookup_mkArray_lt (l : List Value) (j : Nat) (h : j < l.length) :
    tlookup (mkArray l).table (decimalString j) = some (indexDescr j) := by
  rw [mkArray_table]
  exact tlookup_foldIdx_lt _ _ _ h

theorem tlookup_mkArray_ge (l : List Value) (j : Nat) (h : l.length ≤ j) :
    tlookup (mkArray l).table (decimalString j) = none := by
  rw [mkArray_table, tlookup_foldIdx_ge _ _ _ h]
  simp [tlookup, Ne.symm (dec_ne_length j)]

theorem tlookup_mkArray_length (l : List Value) :
    tlookup (mkArray l).table nmLength = some lengthDescrArray := by
  rw [mkArray_table, tlookup_foldIdx_nondigit _ _ nmLength 'l' (by decide) (by decide)]
  simp [tlookup]

/-! ### Sample data used by counterexamples and witnesses -/

def sampleText : String := "ab"

def sampleProp : String := "greeting"

def c1CexObj : JObj :=
  (defineProperty (mkString sampleText) nmConcat { value := Value.int32 42 }).2

/-- C1 counterexample: on a String object carrying a stored value descriptor
for `concat` (storedValue 42, no getter), `get` does not resolve from the
stored descriptor — `JString::getPropertyInternal` matches `concat` and
returns the synthesized built-in before ever consulting the table. -/
theorem c1_counterexample :
    tlookup c1CexObj.table nmConcat = some { value := Value.int32 42 }
  ∧ resolveDescriptor { value := Value.int32 42 } c1CexObj.payload = Value.int32 42
  ∧ getProperty c1CexObj nmConcat = Value.func nmConcat FnImpl.strConcat
  ∧ getProperty c1CexObj nmConcat ≠ Value.int32 42 :=
  ⟨rfl, rfl, rfl, fun h => Value.noConfusion h⟩

/-- C1 (amended): for every object and every name that is not one of the
kind's intercepted built-in method names, a stored descriptor resolves the
read (getter if present, else storedValue); for an intercepted name the
override returns the synthesized built-in without consulting the table at
all (the read is independent of the stored table). -/
theorem c1_stored_resolution (o : JObj) (name : String) :
    (∀ d, tlookup o.table name = some d → ¬ intercepted o.payload name →
        getProperty o name = resolveDescriptor d o.payload)
  ∧ (intercepted o.payload name →
        getProperty o name = getProperty { payload := o.payload, table := [] } name) := by
  constructor
  · intro d hd hni
    rw [getProperty_eq_baseGet o name hni]
    simp [baseGet, hd]
  · intro h
    obtain ⟨p, t⟩ := o
    exact getProperty_table_irrel p t [] name h

def c1WitObj : JObj := (defineProperty mkObject sampleProp { value := Value.int32 5 }).2

/-- Witness for C1: a stored plain value descriptor on a plain object
resolves a read to its stored value. -/
theorem c1_stored_resolution_witness :
    getProperty c1WitObj sampleProp = Value.int32 5 :=
  (c1_stored_resolution c1WitObj sampleProp).1 { value := Value.int32 5 } rfl
    (fun h => False.elim h)

/-- C2 counterexample: on a fresh String, `set` of `concat` succeeds and
creates a plain value descriptor, but the subsequent `get` still returns the
synthesized built-in, not the stored value — the stored descriptor does not
shadow the built-in. -/
theorem c2_counterexample :
    (setProperty (mkString sampleText) nmConcat (Value.int32 7)).1 = true
  ∧ tlookup (setProperty (mkString sampleText) nmConcat (Value.int32 7)).2.table nmConcat
      = some { value := Value.int32 7 }
  ∧ getProperty (setProperty (mkString sampleText) nmConcat (Value.int32 7)).2 nmConcat
      = Value.func nmConcat FnImpl.strConcat
  ∧ getProperty (setProperty (mkString sampleText) nmConcat (Value.int32 7)).2 nmConcat
      ≠ Value.int32 7 :=
  ⟨rfl, rfl, rfl, fun h => Value.noConfusion h⟩

/-- C2 (amended): a `set` on a name with no stored descriptor succeeds and
creates a plain value descriptor with default flags; the subsequent `get`
returns the stored value only for names the kind's override does not
intercept — for an intercepted built-in method name the read is unchanged
(still the synthesized built-in). -/
theorem c2_set_unknown_name (o : JObj) (name : String) (v : Value)
    (h : tlookup o.table name = none) :
    (setProperty o name v).1 = true
  ∧ tlookup (setProperty o name v).2.table name = some { value := v }
  ∧ (¬ intercepted o.payload name → getProperty (setProperty o name v).2 name = v)
  ∧ (intercepted o.payload name →
      getProperty (setProperty o name v).2 name = getProperty o name) := by
  have hset : setProperty o name v
      = (true, { o with table := upsert o.table name { value := v } }) := by
    simp [setProperty, h]
  refine ⟨by rw [hset], ?_, ?_, ?_⟩
  · rw [hset]
    exact tlookup_upsert_self _ _ _
  · intro hni
    rw [hset]
    have hni2 : ¬ intercepted ({ o with table := upsert o.table name { value := v } } : JObj).payload name := hni
    rw [getProperty_eq_baseGet _ _ hni2]
    simp [baseGet, tlookup_upsert_self, resolveDescriptor]
  · intro hi
    rw [hset]
    obtain ⟨p, t⟩ := o
    exact getProperty_table_irrel p _ t name hi

/-- Witness for C2: writing an unknown name on a plain object stores the
value and a read returns it. -/
theorem c2_set_unknown_name_witness :
    getProperty (setProperty mkObject sampleProp (Value.int32 3)).2 sampleProp = Value.int32 3 :=
  (c2_set_unknown_name mkObject sampleProp (Value.int32 3) rfl).2.2.1 (fun h => False.elim h)

/-- C3 counterexample: after `define("concat", d)` with a plain value
descriptor on a String, the immediately following `get("concat")` returns the
synthesized built-in, not `d.storedValue`. -/
theorem c3_counterexample :
    (defineProperty (mkString sampleText) nmConcat { value := Value.int32 5 }).1 = true
  ∧ getProperty (defineProperty (mkString sampleText) nmConcat { value := Value.int32 5 }).2
      nmConcat = Value.func nmConcat FnImpl.strConcat
  ∧ getProperty (defineProperty (mkString sampleText) nmConcat { value := Value.int32 5 }).2
      nmConcat ≠ resolveDescriptor { value := Value.int32 5 } (Payload.str sampleText) :=
  ⟨rfl, rfl, fun h => Value.noConfusion h⟩

/-- C3 (amended): `define` is an unconditional upsert that always succeeds
(regardless of any prior descriptor's flags), and for every name the kind's
override does not intercept, an immediately following `get` returns
`d.getter()` if `d` has a getter, else `d.storedValue`. -/
theorem c3_define_get (o : JObj) (name : String) (d : Descriptor) :
    (defineProperty o name d).1 = true
  ∧ tlookup (defineProperty o name d).2.table name = some d
  ∧ (¬ intercepted o.payload name →
      getProperty (defineProperty o name d).2 name = resolveDescriptor d o.payload) := by
  refine ⟨rfl, tlookup_upsert_self _ _ _, ?_⟩
  intro hni
  have hni2 : ¬ intercepted ((defineProperty o name d).2).payload name := hni
  rw [getProperty_eq_baseGet _ _ hni2]
  simp [baseGet, defineProperty, tlookup_upsert_self]

def c3WitDescr : Descriptor := { getter := some (GetterImpl.constGetter (Value.int32 9)) }

/-- Witness for C3: define-then-get through a caller-supplied getter. -/
theorem c3_define_get_witness :
    getProperty (defineProperty mkObject sampleProp c3WitDescr).2 sampleProp = Value.int32 9 :=
  (c3_define_get mkObject sampleProp c3WitDescr).2.2 (fun h => False.elim h)

/-- C4 (confirmed): `setProperty` invokes a present setter with the value and
reports success unconditionally (table untouched, the setter's effect applied
to the payload); else overwrites the stored value and succeeds when writable
(other entries untouched); else fails silently leaving the object unchanged
(so a subsequent `get` is unchanged); and on a miss inserts a descriptor with
default flags (writable, enumerable, configurable all true) holding the
value. -/
theorem c4_setProperty_spec (o : JObj) (name : String) (v : Value) :
    (∀ d, tlookup o.table name = some d →
        (∀ s, d.setter = some s →
            setProperty o name v = (true, { o with payload := runSetter s o.payload v }))
      ∧ (d.setter = none → d.writable = true →
            (setProperty o name v).1 = true
          ∧ (setProperty o name v).2.payload = o.payload
          ∧ tlookup (setProperty o name v).2.table name = some { d with value := v }
          ∧ ∀ k, k ≠ name → tlookup (setProperty o name v).2.table k = tlookup o.table k)
      ∧ (d.setter = none → d.writable = false →
            setProperty o name v = (false, o)
          ∧ getProperty (setProperty o name v).2 name = getProperty o name))
  ∧ (tlookup o.table name = none →
        (setProperty o name v).1 = true
      ∧ (setProperty o name v).2.payload = o.payload
      ∧ tlookup (setProperty o name v).2.table name = some { value := v }) := by
  constructor
  · intro d hd
    refine ⟨?_, ?_, ?_⟩
    · intro s hs
      simp [setProperty, hd, hs]
    · intro hs hw
      have hset : setProperty o name v
          = (true, { o with table := upsert o.table name { d with value := v } }) := by
        simp [setProperty, hd, hs, hw]
      rw [hset]
      exact ⟨rfl, rfl, tlookup_upsert_self _ _ _, fun k hk => tlookup_upsert_ne _ _ _ _ hk⟩
    · intro hs hw
      have hset : setProperty o name v = (false, o) := by
        simp [setProperty, hd, hs, hw]
      rw [hset]
      exact ⟨rfl, rfl⟩
  · intro h
    have hset : setProperty o name v
        = (true, { o with table := upsert o.table name { value := v } }) := by
      simp [setProperty, h]
    rw [hset]
    exact ⟨rfl, rfl, tlookup_upsert_self _ _ _⟩

def c4WitObj : JObj :=
  (defineProperty mkObject sampleProp { value := Value.int32 1, writable := false }).2

/-- Witness for C4: a write to a non-writable value descriptor is rejected
and leaves the object unchanged. -/
theorem c4_setProperty_spec_witness :
    setProperty c4WitObj sampleProp (Value.int32 2) = (false, c4WitObj) :=
  (((c4_setProperty_spec c4WitObj sampleProp (Value.int32 2)).1
      { value := Value.int32 1, writable := false } rfl).2.2 rfl rfl).1

/-- C5 (confirmed): `deleteProperty` succeeds and removes exactly the entry
when a stored descriptor exists and is configurable; when the descriptor is
non-configurable it fails, the object is unchanged and `has` remains true;
when no descriptor exists it fails with the object unchanged.  (The
hypothesis that table keys are pairwise distinct is the `unordered_map`
invariant every reachable object has.) -/
theorem c5_deleteProperty_spec (o : JObj) (name : String) (hwf : TableWF o) :
    (∀ d, tlookup o.table name = some d →
        (d.configurable = true →
            (deleteProperty o name).1 = true
          ∧ tlookup (deleteProperty o name).2.table name = none
          ∧ ∀ k, k ≠ name → tlookup (deleteProperty o name).2.table k = tlookup o.table k)
      ∧ (d.configurable = false →
            deleteProperty o name = (false, o)
          ∧ hasProperty (deleteProperty o name).2 name = true))
  ∧ (tlookup o.table name = none → deleteProperty o name = (false, o)) := by
  constructor
  · intro d hd
    constructor
    · intro hc
      have hdel : deleteProperty o name = (true, { o with table := eraseKey o.table name }) := by
        simp [deleteProperty, hd, hc]
      rw [hdel]
      exact ⟨rfl, tlookup_eraseKey_self _ _ hwf, fun k hk => tlookup_eraseKey_ne _ _ _ hk⟩
    · intro hc
      have hdel : deleteProperty o name = (false, o) := by
        simp [deleteProperty, hd, hc]
      rw [hdel]
      exact ⟨rfl, by simp [hasProperty, hd]⟩
  · intro h
    simp [deleteProperty, h]

def c5WitObj : JObj :=
  (defineProperty mkObject sampleProp { value := Value.int32 1, configurable := false }).2

/-- Witness for C5: deleting a non-configurable descriptor fails and `has`
remains true. -/
theorem c5_deleteProperty_spec_witness :
    deleteProperty c5WitObj sampleProp = (false, c5WitObj)
  ∧ hasProperty (deleteProperty c5WitObj sampleProp).2 sampleProp = true :=
  ((c5_deleteProperty_spec c5WitObj sampleProp
      ((by decide : (c5WitObj.table.map Prod.fst).Nodup))).1
    { value := Value.int32 1, configurable := false } rfl).2 rfl

/-! ### C6: integer-index accessors of a List -/

/-- C6 counterexample: writing index 2 of a one-element array returns true
but does not extend the element sequence (the claim requires extension to
include the index, which would make the length 3). -/
theorem c6_counterexample :
    (setProperty (mkArray [Value.int32 1]) (decimalString 2) (Value.int32 9)).1 = true
  ∧ JObj.elems (setProperty (mkArray [Value.int32 1]) (decimalString 2) (Value.int32 9)).2
      = [Value.int32 1]
  ∧ (JObj.elems (setProperty (mkArray [Value.int32 1]) (decimalString 2) (Value.int32 9)).2).length
      ≠ 3 :=
  ⟨rfl, rfl, by decide⟩

/-- C6 (amended): on a freshly constructed array, `get`/`set` of the decimal
string of an in-range index read/write that element; an out-of-range index is
absent on read, and a write to it succeeds but only creates a plain stored
value descriptor — the element sequence is left unchanged (no extension, no
gap fill). -/
theorem c6_index_accessors (l : List Value) (i : Nat) (v : Value) :
    (∀ h : i < l.length,
        getProperty (mkArray l) (decimalString i) = l.get ⟨i, h⟩
      ∧ setProperty (mkArray l) (decimalString i) v
          = (true, { payload := Payload.arr (l.set i v), table := (mkArray l).table }))
  ∧ (l.length ≤ i →
        getProperty (mkArray l) (decimalString i) = Value.null
      ∧ (setProperty (mkArray l) (decimalString i) v).1 = true
      ∧ tlookup (setProperty (mkArray l) (decimalString i) v).2.table (decimalString i)
          = some { value := v }
      ∧ (setProperty (mkArray l) (decimalString i) v).2.payload = Payload.arr l) := by
  constructor
  · intro h
    constructor
    · rw [getProperty_eq_baseGet _ _ (not_intercepted_decimal _ _)]
      simp only [baseGet, tlookup_mkArray_lt l i h, resolveDescriptor, indexDescr,
        mkArray_payload, runGetter]
      rw [dif_pos h]
    · simp only [setProperty, tlookup_mkArray_lt l i h, indexDescr]
      simp [runSetter, mkArray_payload, h]
  · intro h
    have hget : getProperty (mkArray l) (decimalString i) = Value.null := by
      rw [getProperty_eq_baseGet _ _ (not_intercepted_decimal _ _)]
      simp [baseGet, tlookup_mkArray_ge l i h, dec_ne_toString i]
    have hset : setProperty (mkArray l) (decimalString i) v
        = (true, { mkArray l with
            table := upsert (mkArray l).table (decimalString i) { value := v } }) := by
      simp [setProperty, tlookup_mkArray_ge l i h]
    refine ⟨hget, by rw [hset], ?_, ?_⟩
    · rw [hset]
      exact tlookup_upsert_self _ _ _
    · rw [hset]
      exact mkArray_payload l

/-- Witness for C6: index 1 of a two-element array reads the second
element. -/
theorem c6_index_accessors_witness :
    getProperty (mkArray [Value.int32 1, Value.int32 2]) (decimalString 1) = Value.int32 2 :=
  ((c6_index_accessors [Value.int32 1, Value.int32 2] 1 Value.null).1 (by decide)).1

/-! ### C7: slice -/

/-- The claim's normalisation: a negative index means `max 0 (length + value)`,
a non-negative one is used as is. -/
def claimNorm (n : Nat) (v : Int) : Int := if v < 0 then max 0 ((n : Int) + v) else v

theorem wrap32_eq_self (x : Int) (h0 : 0 ≤ x) (h1 : x < 2147483648) : wrap32 x = x := by
  unfold wrap32
  omega

theorem drop_take_clamp (l : List Value) (a b : Nat) :
    (l.drop (min a l.length)).take (min b l.length - min a l.length)
      = (l.drop a).take (b - a) := by
  rcases Nat.le_total a l.length with ha | ha
  · rw [Nat.min_eq_left ha]
    rcases Nat.le_total b l.length with hb | hb
    · rw [Nat.min_eq_left hb]
    · rw [Nat.min_eq_right hb]
      have hlen : (l.drop a).length = l.length - a := List.length_drop a l
      rw [List.take_of_length_le (le_of_eq hlen), List.take_of_length_le (by omega)]
  · rw [Nat.min_eq_right ha, List.drop_length, List.drop_eq_nil_of_le ha, List.take_nil,
      List.take_nil]

theorem take_drop_nil_of_cross (l : List Value) (a b : Nat)
    (h : min b l.length ≤ min a l.length) : (l.drop a).take (b - a) = [] := by
  by_cases hba : b ≤ a
  · rw [Nat.sub_eq_zero_of_le hba, List.take_zero]
  · have hla : l.length ≤ a := by omega
    rw [List.drop_eq_nil_of_le hla, List.take_nil]

theorem callBuiltin_slice (l : List Value) (args : List Value) :
    callBuiltin FnImpl.arrSlice (mkArray l) args = some (mkArray l, sliceImpl l args) := rfl

theorem sliceImpl_pair (l : List Value) (s e : Int) (hlen : (l.length : Int) < 2147483648) :
    sliceImpl l [Value.int32 s, Value.int32 e]
      = Value.arr ((l.drop (claimNorm l.length s).toNat).take
          ((claimNorm l.length e).toNat - (claimNorm l.length s).toNat)) := by
  have hw : wrap32 (l.length : Int) = (l.length : Int) := wrap32_eq_self _ (by positivity) hlen
  simp only [sliceImpl, List.head?_cons, List.get?_cons_succ, List.get?_cons_zero, hw, claimNorm]
  by_cases hc : min ((if e < 0 then max 0 ((l.length : Int) + e) else e).toNat) l.length
      ≤ min ((if s < 0 then max 0 ((l.length : Int) + s) else s).toNat) l.length
  · rw [if_pos hc, take_drop_nil_of_cross l _ _ hc]
  · rw [if_neg hc, drop_take_clamp]

def demoFive : List Value :=
  [Value.int32 1, Value.int32 2, Value.int32 3, Value.int32 4, Value.int32 5]

/-- C7 (confirmed): `slice(start, end)` normalises a negative bound to
`max 0 (length + value)`, a missing end defaults to the length, the result is
a fresh List of the elements from the normalised start (inclusive) to the
normalised end (exclusive), crossing bounds yield an empty List and never an
error, `slice(-2)` on `[1,2,3,4,5]` yields `[4,5]`, and the receiver is
returned unchanged.  (The length bound is the faithfulness domain of the
`size_t`→`int32_t` cast in the source.) -/
theorem c7_slice_spec (l : List Value) (s e : Int) (hlen : (l.length : Int) < 2147483648) :
    callBuiltin FnImpl.arrSlice (mkArray l) [Value.int32 s, Value.int32 e]
      = some (mkArray l, Value.arr ((l.drop (claimNorm l.length s).toNat).take
          ((claimNorm l.length e).toNat - (claimNorm l.length s).toNat)))
  ∧ callBuiltin FnImpl.arrSlice (mkArray l) [Value.int32 s]
      = callBuiltin FnImpl.arrSlice (mkArray l) [Value.int32 s, Value.int32 (l.length : Int)]
  ∧ (claimNorm l.length e ≤ claimNorm l.length s →
      callBuiltin FnImpl.arrSlice (mkArray l) [Value.int32 s, Value.int32 e]
        = some (mkArray l, Value.arr []))
  ∧ callBuiltin FnImpl.arrSlice (mkArray demoFive) [Value.int32 (-2)]
      = some (mkArray demoFive, Value.arr [Value.int32 4, Value.int32 5]) := by
  have hmain := sliceImpl_pair l s e hlen
  refine ⟨by rw [callBuiltin_slice, hmain], ?_, ?_, ?_⟩
  · rw [callBuiltin_slice, callBuiltin_slice]
    have hw : wrap32 (l.length : Int) = (l.length : Int) := wrap32_eq_self _ (by positivity) hlen
    simp only [sliceImpl, List.head?_cons, List.get?_cons_succ, List.get?_cons_zero,
      List.get?_nil, hw]
  · intro hcross
    rw [callBuiltin_slice, hmain]
    have hz : (claimNorm l.length e).toNat - (claimNorm l.length s).toNat = 0 := by
      have := Int.toNat_le_toNat hcross
      omega
    rw [hz, List.take_zero]
  · rfl

/-- Witness for C7: `slice(1, 3)` on `[1,2,3,4,5]` yields `[2,3]`. -/
theorem c7_slice_spec_witness :
    callBuiltin FnImpl.arrSlice (mkArray demoFive) [Value.int32 1, Value.int32 3]
      = some (mkArray demoFive, Value.arr [Value.int32 2, Value.int32 3]) :=
  (c7_slice_spec demoFive 1 3 (by decide)).1

/-! ### C8: the length attribute of a List -/

/-- C8 (confirmed): reading `length` returns the current element count, and
writing a `uint32` size through the stored accessor descriptor resizes the
underlying sequence to exactly the requested size — truncating, or extending
with the absent value (`ValueVariant()` default-constructs to `nullptr`).
(The bound is the faithfulness domain of the `size_t`→`uint32_t` cast in the
length getter.) -/
theorem c8_length_spec (l : List Value) (n : Nat) (hlen : l.length < 4294967296) :
    getProperty (mkArray l) nmLength = Value.uint32 l.length
  ∧ setProperty (mkArray l) nmLength (Value.uint32 n)
      = (true, { payload := Payload.arr (resizeList l n), table := (mkArray l).table })
  ∧ (resizeList l n).length = n
  ∧ (n ≤ l.length → resizeList l n = l.take n)
  ∧ (l.length ≤ n → resizeList l n = l ++ List.replicate (n - l.length) Value.null) := by
  refine ⟨?_, ?_, ?_, ?_, ?_⟩
  · rw [getProperty_eq_baseGet _ _ (not_intercepted_length _)]
    simp only [baseGet, tlookup_mkArray_length, resolveDescriptor, lengthDescrArray,
      mkArray_payload, runGetter]
    simp [toU32, Nat.mod_eq_of_lt hlen]
  · simp only [setProperty, tlookup_mkArray_length, lengthDescrArray]
    simp [runSetter, mkArray_payload]
  · simp only [resizeList, List.length_append, List.length_take, List.length_replicate]
    omega
  · intro h
    simp [resizeList, Nat.sub_eq_zero_of_le h]
  · intro h
    rw [resizeList, List.take_of_length_le h]

/-- Witness for C8: writing length 3 to a one-element array zero-extends it
with two absent values. -/
theorem c8_length_spec_witness :
    setProperty (mkArray [Value.int32 1]) nmLength (Value.uint32 3)
      = (true, { payload := Payload.arr [Value.int32 1, Value.null, Value.null],
                 table := (mkArray [Value.int32 1]).table }) :=
  (c8_length_spec [Value.int32 1] 3 (by decide)).2.1

/-! ### C9: the setTime/getTime round trip of a Timestamp -/

/-- The seconds-since-epoch instant an object's date payload stores. -/
def dateSeconds (o : JObj) : Int :=
  match o.payload with
  | Payload.date s => s
  | _ => 0

theorem toI64_eq_self (x : Int) (h0 : 0 ≤ x) (h1 : x < 9223372036854775808) : toI64 x = x := by
  unfold toI64
  omega

theorem toU64Int_coe (m : Nat) (h : m < 18446744073709551616) : toU64Int (m : Int) = m := by
  unfold toU64Int
  omega

/-- C9 (confirmed): constructing a Timestamp from a millisecond timestamp `t`
or setting it via the synthesized `setTime` stores `from_time_t(t / 1000)`, so
`getTime` returns `(t / 1000) * 1000` in truncating integer division —
sub-second precision is discarded (1500 ms round-trips to 1000 ms). -/
theorem c9_time_spec (t : Int) (n : Nat) (hn : n < 9223372036854775808) :
    dateGetTimeVal (dateSeconds (mkDate t)) = t.tdiv 1000 * 1000
  ∧ callBuiltin FnImpl.dateGetTime (mkDate t) []
      = some (mkDate t, Value.uint64 (toU64Int (t.tdiv 1000 * 1000)))
  ∧ callBuiltin FnImpl.dateSetTime (mkDate 0) [Value.int32 t]
      = some (mkDate t, Value.uint64 (toU64Int (t.tdiv 1000 * 1000)))
  ∧ callBuiltin FnImpl.dateSetTime (mkDate 0) [Value.uint64 n]
      = some (mkDate (n : Int), Value.uint64 (n / 1000 * 1000))
  ∧ dateGetTimeVal (dateSeconds (mkDate 1500)) = 1000
  ∧ dateGetTimeVal (dateSeconds (mkDate 1500)) ≠ 1500 := by
  refine ⟨rfl, rfl, rfl, ?_, by decide, by decide⟩
  have h64 : toI64 (n : Int) = (n : Int) :=
    toI64_eq_self _ (by positivity) (by exact_mod_cast hn)
  have hs2 : (toI64 (n : Int)).tdiv 1000 = ((n / 1000 : Nat) : Int) := by
    rw [h64]
    rfl
  show some ({ payload := Payload.date ((toI64 (n : Int)).tdiv 1000), table := [] },
      Value.uint64 (toU64Int (dateGetTimeVal ((toI64 (n : Int)).tdiv 1000))))
    = some (mkDate (n : Int), Value.uint64 (n / 1000 * 1000))
  rw [hs2]
  have hcast : dateGetTimeVal ((n / 1000 : Nat) : Int) = ((n / 1000 * 1000 : Nat) : Int) := by
    simp only [dateGetTimeVal]
    push_cast
    ring
  rw [hcast, toU64Int_coe _ (by have := Nat.div_mul_le_self n 1000; omega)]
  rfl

/-- Witness for C9: the synthesized `setTime` with 5500 ms reports 5000 ms. -/
theorem c9_time_spec_witness :
    callBuiltin FnImpl.dateSetTime (mkDate 0) [Value.uint64 5500]
      = some (mkDate (5500 : Int), Value.uint64 5000) :=
  (c9_time_spec 0 5500 (by decide)).2.2.2.1

/-! ### C10: stale index descriptors after shrinking operations -/

theorem updateLength_unfold (p : List Value) (T : List (String × Descriptor)) :
    updateLength { payload := Payload.arr p, table := T }
      = { payload := Payload.arr p, table := foldIdx T p.length } := rfl

theorem tlookup_foldIdx_mkArray (l : List Value) (m j : Nat) (hj : j < l.length) :
    tlookup (foldIdx (mkArray l).table m) (decimalString j) = some (indexDescr j) := by
  by_cases hm : j < m
  · exact tlookup_foldIdx_lt _ _ _ hm
  · rw [tlookup_foldIdx_ge _ _ _ (by omega)]
    exact tlookup_mkArray_lt l j hj

theorem getProperty_stale_null (o : JObj) (l2 : List Value) (j : Nat)
    (hpay : o.payload = Payload.arr l2)
    (hlk : tlookup o.table (decimalString j) = some (indexDescr j))
    (hj : l2.length ≤ j) :
    getProperty o (decimalString j) = Value.null := by
  rw [getProperty_eq_baseGet _ _ (not_intercepted_decimal _ _)]
  simp only [baseGet, hlk, resolveDescriptor, indexDescr, runGetter, hpay]
  rw [dif_neg (by omega)]

theorem mem_getPropertyNames_of_indexDescr (o : JObj) (j : Nat)
    (hlk : tlookup o.table (decimalString j) = some (indexDescr j)) :
    decimalString j ∈ getPropertyNames o := by
  have hmem := tlookup_mem _ _ _ hlk
  simp only [getPropertyNames, List.mem_map]
  refine ⟨(decimalString j, indexDescr j), ?_, rfl⟩
  rw [List.mem_filter]
  exact ⟨hmem, rfl⟩

/-- The element-sequence shrinking operations the claim names. -/
inductive ArrayOp where
  | pop
  | shift
  | splice (args : List Value)

/-- Invoke a shrinking operation on its receiver. -/
def applyArrayOp : ArrayOp → JObj → JObj × Value
  | ArrayOp.pop, o => arrPopImpl o
  | ArrayOp.shift, o => arrShiftImpl o
  | ArrayOp.splice args, o => arrSpliceImpl o args

/-- C10 (confirmed): after `pop`, `shift`, or any `splice` on an array,
every decimal-index name that was in range before the operation still has its
stored accessor descriptor — `has` stays true and `enumerate` still lists the
name — while `get` on an index at or beyond the new length returns the absent
value, because the index getter is bounds-guarded against the current
length. -/
theorem c10_stale_indices (l : List Value) (op : ArrayOp) (j : Nat) (hj : j < l.length) :
    tlookup ((applyArrayOp op (mkArray l)).1).table (decimalString j) = some (indexDescr j)
  ∧ hasProperty ((applyArrayOp op (mkArray l)).1) (decimalString j) = true
  ∧ decimalString j ∈ getPropertyNames ((applyArrayOp op (mkArray l)).1)
  ∧ (((applyArrayOp op (mkArray l)).1).elems.length ≤ j →
      getProperty ((applyArrayOp op (mkArray l)).1) (decimalString j) = Value.null) := by
  have key : ∃ l2, ((applyArrayOp op (mkArray l)).1).payload = Payload.arr l2
      ∧ tlookup ((applyArrayOp op (mkArray l)).1).table (decimalString j)
          = some (indexDescr j) := by
    cases op with
    | pop =>
      rcases hL : l.getLast? with _ | last
      · have hnil : l = [] := by
          have hsome := congrArg Option.isSome hL
          simp [List.getLast?_isSome] at hsome
          exact hsome
        subst hnil
        simp at hj
      · have hstep : applyArrayOp ArrayOp.pop (mkArray l)
            = ({ payload := Payload.arr l.dropLast,
                 table := foldIdx (mkArray l).table l.dropLast.length }, last) := by
          simp [applyArrayOp, arrPopImpl, mkArray_payload, hL, updateLength_unfold]
        exact ⟨l.dropLast, congrArg (fun r => JObj.payload r.1) hstep,
          (congrArg (fun r => tlookup (JObj.table r.1) (decimalString j)) hstep).trans
            (tlookup_foldIdx_mkArray l _ j hj)⟩
    | shift =>
      cases l with
      | nil => simp at hj
      | cons x xs =>
        have hstep : applyArrayOp ArrayOp.shift (mkArray (x :: xs))
            = ({ payload := Payload.arr xs,
                 table := foldIdx (mkArray (x :: xs)).table xs.length }, x) := by
          simp [applyArrayOp, arrShiftImpl, mkArray_payload, updateLength_unfold]
        exact ⟨xs, congrArg (fun r => JObj.payload r.1) hstep,
          (congrArg (fun r => tlookup (JObj.table r.1) (decimalString j)) hstep).trans
            (tlookup_foldIdx_mkArray (x :: xs) _ j hj)⟩
    | splice args =>
      by_cases hA : args.isEmpty
      · have hstep : applyArrayOp (ArrayOp.splice args) (mkArray l)
            = (mkArray l, Value.arr []) := by
          simp [applyArrayOp, arrSpliceImpl, mkArray_payload, hA]
        exact ⟨l, (congrArg (fun r => JObj.payload r.1) hstep).trans (mkArray_payload l),
          (congrArg (fun r => tlookup (JObj.table r.1) (decimalString j)) hstep).trans
            (tlookup_mkArray_lt l j hj)⟩
      · have hstep : applyArrayOp (ArrayOp.splice args) (mkArray l)
            = ({ payload := Payload.arr (spliceNewList l args),
                 table := foldIdx (mkArray l).table (spliceNewList l args).length },
               Value.arr (spliceDeleted l args)) := by
          simp [applyArrayOp, arrSpliceImpl, mkArray_payload, hA, updateLength_unfold]
        exact ⟨spliceNewList l args, congrArg (fun r => JObj.payload r.1) hstep,
          (congrArg (fun r => tlookup (JObj.table r.1) (decimalString j)) hstep).trans
            (tlookup_foldIdx_mkArray l _ j hj)⟩
  obtain ⟨l2, hpay, hlk⟩ := key
  have helems : ((applyArrayOp op (mkArray l)).1).elems = l2 := by
    simp [JObj.elems, hpay]
  refine ⟨hlk, by simp [hasProperty, hlk], mem_getPropertyNames_of_indexDescr _ _ hlk, ?_⟩
  intro hge
  rw [helems] at hge
  exact getProperty_stale_null _ l2 j hpay hlk hge

/-- Witness for C10: after `pop` on `[1, 2]`, the name `"1"` is still stored
but reads as absent. -/
theorem c10_stale_indices_witness :
    getProperty ((applyArrayOp ArrayOp.pop (mkArray [Value.int32 1, Value.int32 2])).1)
        (decimalString 1) = Value.null
  ∧ hasProperty ((applyArrayOp ArrayOp.pop (mkArray [Value.int32 1, Value.int32 2])).1)
        (decimalString 1) = true :=
  ⟨((c10_stale_indices [Value.int32 1, Value.int32 2] ArrayOp.pop 1 (by decide)).2.2.2)
      (by decide),
    (c10_stale_indices [Value.int32 1, Value.int32 2] ArrayOp.pop 1 (by decide)).2.1⟩
